import Mathlib

/-!
Verification of the Hermit shell command-interpretation core.

This file gives a shallow embedding, in Lean 4, of the command
interpretation and execution engine of the Hermit shell (a small
interactive Unix shell written in Rust), and proves properties of the
embedded functions.  The embedded code lives in:

  * `src/shell.rs`     -- tokenizer (`parse_args`), statement splitter
                          (`transform_input`), operator scanners
                          (`try_parse_pipeline`, `try_parse_redirects`),
                          dispatcher (`execute`), session loop (`run`),
                          external-command error mapping (`execute_external`);
  * `src/external.rs` and `src/core/external.rs`
                       -- the process orchestrator (`execute_pipeline`,
                          `wait_for_processes`, `execute`).

Strings are modelled as Lean `String` (a wrapper around `List Char`),
matching the Rust code, which only manipulates strings through their
character sequence.  Interaction with the operating system (spawning a
child process, waiting for it) is modelled by an oracle giving, for each
pipeline stage, the outcome the OS would produce; the orchestrator
functions then record which children were spawned and which were waited
on (reaped), so that process-lifecycle claims become statements about
those traces.
-/

namespace Hermit

/-! ## Tokenizer: `Shell::parse_args` (src/shell.rs lines 322-345)

Rust scans the characters of the input with three pieces of state:
the finished parts, the token being built, and the quote mode.

```rust
for c in input.chars().peekable() {
    match c {
        '"' => in_quotes = !in_quotes,
        ' ' if !in_quotes => {
            if !current_part.is_empty() {
                parts.push(current_part.clone());
                current_part.clear();
            }
        }
        _ => current_part.push(c),
    }
}
if !current_part.is_empty() { parts.push(current_part); }
```
(the `.peekable()` adapter is never peeked, so it is the plain
character iterator). -/

/-- The mutable scanning state of `parse_args`: the emitted parts, the
token under construction, and the quote flag. -/
structure TokState where
  parts : List (List Char)
  current : List Char
  inQuotes : Bool
deriving DecidableEq

/-- One step of the `parse_args` scanner, the body of the `for` loop:
a double quote toggles the flag and is dropped; a space outside quotes
ends the current token (if nonempty); every other character (including
a space inside quotes) is appended to the current token. -/
def tokStep (st : TokState) (c : Char) : TokState :=
  if c = '"' then
    { st with inQuotes := !st.inQuotes }
  else if c = ' ' && !st.inQuotes then
    if st.current ≠ [] then
      { parts := st.parts ++ [st.current], current := [], inQuotes := st.inQuotes }
    else st
  else
    { st with current := st.current ++ [c] }

/-- `Shell::parse_args`: fold the scanner over the characters of the
input, then flush the trailing token if nonempty. -/
def parse_args (input : String) : List String :=
  let st := input.data.foldl tokStep ⟨[], [], false⟩
  let parts := if st.current ≠ [] then st.parts ++ [st.current] else st.parts
  parts.map String.mk

/-! ## Statement splitter: `Shell::transform_input` (src/shell.rs lines 179-191)

```rust
let transformed = match input.split('#').next() {
    Some(cmd) => cmd.trim(),
    None => "",
};
let transformed = transformed.split(';');
transformed
    .map(|cmd| cmd.trim().to_string())
    .filter(|cmd| !cmd.is_empty())
    .collect()
```
`input.split('#').next()` is the prefix of the input before its first
`#` character (the whole input when there is none); we embed it as a
`takeWhile` on the character list.  Rust `str::split(';')` keeps empty
segments and yields one (empty) segment on the empty string; we embed
it directly on character lists.  Rust `str::trim` removes leading and
trailing whitespace characters. -/

/-- Rust `str::split(';')` on a character list: segments between the
semicolons, empty segments kept, one empty segment for the empty list. -/
def splitOnSemicolon : List Char → List (List Char)
  | [] => [[]]
  | c :: rest =>
    if c = ';' then [] :: splitOnSemicolon rest
    else
      match splitOnSemicolon rest with
      | [] => [[c]]
      | seg :: segs => (c :: seg) :: segs

/-- Rust `str::trim` on a character list: drop whitespace from both ends. -/
def trimChars (l : List Char) : List Char :=
  ((l.dropWhile Char.isWhitespace).reverse.dropWhile Char.isWhitespace).reverse

/-- `Shell::transform_input`: truncate at the first `#`, trim, split on
`;`, trim each fragment, and keep only the nonempty fragments. -/
def transform_input (input : String) : List String :=
  let transformed := trimChars (input.data.takeWhile (fun c => c != '#'))
  (((splitOnSemicolon transformed).map trimChars).filter
      (fun frag => !frag.isEmpty)).map String.mk

/-! ## Operator scanner: `Shell::try_parse_pipeline` (src/shell.rs lines 234-265)

```rust
let mut commands = vec![command];
commands.extend(args);
if !commands.contains(&"|") { return None; }
let mut pipeline = Vec::new();
let mut current_cmd = Vec::new();
for arg in commands {
    if arg == "|" {
        if !current_cmd.is_empty() {
            pipeline.push((current_cmd[0], current_cmd[1..].to_vec()));
            current_cmd.clear();
        }
    } else { current_cmd.push(arg); }
}
if !current_cmd.is_empty() {
    pipeline.push((current_cmd[0], current_cmd[1..].to_vec()));
}
Some(pipeline)
```
A pipeline stage is a pair of the command name and its arguments. -/

/-- The stage-collecting loop of `try_parse_pipeline`: first argument is
the pending `current_cmd`, second the remaining tokens.  A `|` token
flushes the pending tokens as a stage (head = command, tail = args) when
they are nonempty, and is otherwise skipped; the trailing tokens are
flushed at the end. -/
def pipelineStages : List String → List String → List (String × List String)
  | current, [] =>
    match current with
    | [] => []
    | c :: cs => [(c, cs)]
  | current, tok :: rest =>
    if tok = "|" then
      match current with
      | [] => pipelineStages [] rest
      | c :: cs => (c, cs) :: pipelineStages [] rest
    else pipelineStages (current ++ [tok]) rest

/-- `Shell::try_parse_pipeline`: when some token is `|`, split the token
list (command followed by args) into pipeline stages; otherwise `none`. -/
def try_parse_pipeline (command : String) (args : List String) :
    Option (List (String × List String)) :=
  let commands := command :: args
  if commands.contains "|" then some (pipelineStages [] commands) else none

/-! ## Operator scanner: `Shell::try_parse_redirects` (src/shell.rs lines 275-297)

```rust
let mut commands = vec![command];
commands.extend(args);
if let Some(pos) = commands.iter().position(|&x| x == ">") {
    if pos + 1 < commands.len() {
        let output = commands[pos + 1].to_string();
        let command = commands[0];
        let args = if pos > 1 { commands[1..pos].to_vec() } else { Vec::new() };
        return Some((command, args, output));
    }
}
None
```
Note that when the first `>` is the last token (`pos + 1 == len`) the
function returns `None` -- no error value exists on this path. -/

/-- `Shell::try_parse_redirects`: find the first `>` token; when a token
follows it, return the command, the tokens strictly between the command
and the `>`, and the following token as the redirect target.  When the
`>` is the last token, or there is no `>`, return `none`. -/
def try_parse_redirects (command : String) (args : List String) :
    Option (String × List String × String) :=
  let commands := command :: args
  match commands.findIdx? (fun x => x == ">") with
  | some pos =>
    if pos + 1 < commands.length then
      some (command,
            (if pos > 1 then (commands.take pos).drop 1 else []),
            commands.getD (pos + 1) "")
    else none
  | none => none

/-! ## Dispatcher: `Shell::execute` (src/shell.rs lines 198-224)

```rust
if command.is_empty() { return Ok(()); }
if let Some(pipeline) = self.try_parse_pipeline(command, args) {
    return Ok(external.execute_pipeline(&pipeline)?);
}
if let Some((cmd, args, output)) = self.try_parse_redirects(command, args) {
    return Ok(external.execute_redirect(cmd, &args, &output)?);
}
self.execute_command(command, args)
```
where `execute_command` runs the builtin when the registry contains the
name (`CommandRegistry::execute` returns `Ok(true)` on a hit and
`Ok(false)` on a miss) and otherwise hands off to `execute_external`.
The registry (src/builtin.rs, src/core/registry.rs) is populated with
the six builtin commands. -/

/-- The names held by the builtin command registry
(`CommandRegistry::setup` registers Echo, ChangeDirectory,
ListDirectory, PrintWorkingDirectory, History, TypeCommand). -/
def builtin_names : List String := ["echo", "cd", "ls", "pwd", "history", "type"]

/-- Where one statement is routed by `Shell::execute`. -/
inductive Route where
  | empty
  | pipeline (stages : List (String × List String))
  | redirect (cmd : String) (args : List String) (output : String)
  | builtin (cmd : String) (args : List String)
  | external (cmd : String) (args : List String)
deriving DecidableEq

/-- The routing decision of `Shell::execute`: empty command short
circuit, then pipeline scan, then redirect scan, then builtin registry
lookup with external fallback. -/
def dispatch (command : String) (args : List String) : Route :=
  if command = "" then .empty
  else
    match try_parse_pipeline command args with
    | some stages => .pipeline stages
    | none =>
      match try_parse_redirects command args with
      | some (cmd, rargs, output) => .redirect cmd rargs output
      | none =>
        if builtin_names.contains command then .builtin command args
        else .external command args

/-! ## Process orchestrator: `ExternalCommand::execute_pipeline`
(src/core/external.rs lines 30-59 and src/external.rs lines 35-78)

```rust
if pipeline.is_empty() { return Ok(()); }
let mut processes = Vec::new();
let mut previous_pipe = None;
for (i, (cmd, args)) in pipeline.iter().enumerate() {
    let mut command = self.create_base_command(cmd, args);
    if let Some(prev_pipe) = previous_pipe.take() { command.stdin(prev_pipe); }
    if i < pipeline.len() - 1 {
        let (reader, writer) = pipe()?;
        command.stdout(writer);
        previous_pipe = Some(reader);
    }
    processes.push(command.spawn()?);
}
self.wait_for_processes(processes)
```
and `wait_for_processes` (src/core/external.rs lines 109-120):
```rust
for (i, mut process) in processes.into_iter().enumerate() {
    let status = process.wait()?;
    if !status.success() {
        return Err(Error::new(ErrorKind::Other,
            format!("Pipeline command {} exited with status: {}", i + 1, status)));
    }
}
Ok(())
```
(src/external.rs has the same two loops inlined in one function, without
the emptiness guard -- on the empty pipeline both loops are vacuous
there, so both versions return `Ok(())` -- and without the `{}` index in
the failure message.)

We model the operating system by an oracle giving, per stage index, the
outcome of the spawn attempt: either the spawn call itself fails with an
error message (the raw `io::Error`, e.g. the not-found message for a
missing executable), or a child process is created that will later exit
with a given status (0 meaning success).  `pipe()` creation and `wait`
are modelled as always succeeding.  The embedding returns, besides the
`Result`, the list of stage indices whose child was actually spawned and
the list of those whose child was actually waited on (reaped), so
process-lifecycle properties are statements about the returned trace. -/

/-- What the OS does when the orchestrator tries to spawn one stage. -/
inductive SpawnOutcome where
  | spawnFail (msg : String)
  | spawned (exitStatus : Nat)
deriving DecidableEq

/-- Errors produced by pipeline execution, with the message the shell
would print:  `spawnError` carries the raw OS error propagated by the
`?` operator on `command.spawn()`; `stageError` carries the 1-based
position of the failing child in the wait loop and its exit status. -/
inductive PipelineError where
  | spawnError (msg : String)
  | stageError (position : Nat) (status : Nat)
deriving DecidableEq

/-- Rust renders an `ExitStatus` as `exit status: <code>`. -/
def statusDisplay (status : Nat) : String :=
  "exit status: " ++ toString status

/-- The message the shell prints for a pipeline error (a `spawnError`
prints the raw OS message; a `stageError` prints the format string of
`wait_for_processes`). -/
def PipelineError.message : PipelineError → String
  | .spawnError msg => msg
  | .stageError position status =>
    "Pipeline command " ++ toString position ++ " exited with status: "
      ++ statusDisplay status

/-- The spawn loop of `execute_pipeline`: walk the stages left to right
(first argument is the index of the next stage), spawning each.  On the
first spawn failure the `?` operator returns the error at once; the
children already spawned are recorded as `(stage index, eventual exit
status)` pairs and simply dropped by the early return.  Result: the
spawn error, if any, and the children spawned before it. -/
def spawn_loop (os : Nat → SpawnOutcome) :
    Nat → List (String × List String) → Option String × List (Nat × Nat)
  | _, [] => (none, [])
  | i, _ :: rest =>
    match os i with
    | .spawnFail msg => (some msg, [])
    | .spawned status =>
      let r := spawn_loop os (i + 1) rest
      (r.1, (i, status) :: r.2)

/-- `ExternalCommand::wait_for_processes`: walk the spawned children in
order (first argument is the running `enumerate` counter), waiting on
each in turn; the first child with a non-success status makes the loop
return the stage error naming position `i + 1` at once, so the children
after it are dropped without being waited on.  Result: the `Result` of
the Rust function and the stage indices actually waited on (reaped). -/
def wait_for_processes :
    Nat → List (Nat × Nat) → Except PipelineError Unit × List Nat
  | _, [] => (.ok (), [])
  | i, (idx, status) :: rest =>
    if status = 0 then
      let r := wait_for_processes (i + 1) rest
      (r.1, idx :: r.2)
    else (.error (.stageError (i + 1) status), [idx])

deriving instance DecidableEq for Except

/-- The observable outcome of one `execute_pipeline` call: the returned
`Result`, the stage indices whose child was spawned, and the stage
indices whose child was waited on. -/
structure PipelineTrace where
  result : Except PipelineError Unit
  spawned : List Nat
  reaped : List Nat
deriving DecidableEq

/-- `ExternalCommand::execute_pipeline` over the OS oracle: empty
pipelines succeed at once; otherwise all stages are spawned up front (a
spawn failure aborts with the raw OS error, dropping the children
spawned so far), then `wait_for_processes` waits on the children in
order. -/
def execute_pipeline (os : Nat → SpawnOutcome)
    (pipeline : List (String × List String)) : PipelineTrace :=
  if pipeline.isEmpty then ⟨.ok (), [], []⟩
  else
    match spawn_loop os 0 pipeline with
    | (some msg, children) =>
      ⟨.error (.spawnError msg), children.map Prod.fst, []⟩
    | (none, children) =>
      let w := wait_for_processes 0 children
      ⟨w.1, children.map Prod.fst, w.2⟩

/-! ## Single external command: `ExternalCommand::execute`
(src/external.rs lines 17-33) and the error mapping of
`Shell::execute_external` (src/shell.rs lines 304-313)

```rust
let mut child = Command::new(command).args(args).current_dir(..).spawn()?;
let status = child.wait()?;
if !status.success() {
    return Err(io::Error::new(io::ErrorKind::Other,
        format!("Command exited with status: {}", status)));
}
Ok(())
```
and in the shell:
```rust
match external.execute(command, args) {
    Ok(_) => Ok(()),
    Err(e) if e.kind() == io::ErrorKind::NotFound => {
        Err(format!("command not found: {}", command).into())
    }
    Err(e) => Err(e.into()),
}
```
The OS outcome of the single spawn is modelled like the pipeline one,
except that the error kind matters here: a failed spawn carries either
the not-found kind or some other kind. -/

/-- The kind of an `io::Error`, as far as the shell inspects it. -/
inductive IoErrorKind where
  | notFound
  | other
deriving DecidableEq

/-- An `io::Error`: a kind and the message its `Display` prints. -/
structure IoError where
  kind : IoErrorKind
  msg : String
deriving DecidableEq

/-- What the OS does for the single spawn of `ExternalCommand::execute`:
the spawn fails with some error kind and message, or a child is created
that exits with the given status. -/
inductive OsOutcome where
  | spawnFails (kind : IoErrorKind) (msg : String)
  | exits (status : Nat)
deriving DecidableEq

/-- `ExternalCommand::execute` over the OS outcome: a spawn failure is
propagated by `?`; a non-success exit status becomes an `Other` error
with the formatted message; otherwise the call succeeds. -/
def external_execute (out : OsOutcome) : Except IoError Unit :=
  match out with
  | .spawnFails kind msg => .error ⟨kind, msg⟩
  | .exits status =>
    if status = 0 then .ok ()
    else .error ⟨.other, "Command exited with status: " ++ statusDisplay status⟩

/-- `Shell::execute_external`: run the external command and map a
not-found error kind to the message `command not found: <name>`; every
other error keeps its own message (the error the session loop prints). -/
def execute_external (command : String) (out : OsOutcome) : Except String Unit :=
  match external_execute out with
  | .ok _ => .ok ()
  | .error e =>
    if e.kind = .notFound then .error ("command not found: " ++ command)
    else .error e.msg

/-! ## Session loop: the statement loop of `Shell::run`
(src/shell.rs lines 64-93) and `Shell::read_input` (lines 129-146)

```rust
for command in input {
    let parts = self.parse_args(&command);
    let parts: Vec<&str> = parts.iter().map(|s| s.as_str()).collect();
    let command = parts.first().unwrap();
    let expanded_args: Vec<String> =
        parts[1..].iter().map(|arg| self.expand_tilde(arg)).collect();
    ...
    match command.to_string().as_str() {
        "exit" => { ...; return Ok(()); }
        _ => match self.execute(command, &args) {
            Ok(_) => {}
            Err(e) => eprintln!("{}", e),
        },
    }
    ...
}
```
The loop body is modelled over an abstract statement executor (standing
for `Shell::execute`, whose outcome depends on the OS) and an abstract
tilde expansion (standing for `expand_tilde`, which depends on the HOME
environment variable).  `parts.first().unwrap()` on an empty token list
aborts the process with a panic, modelled by the `panicked` outcome.
In `read_input`, the line read is passed to the line editor by
`self.editor.add_history_entry(&line)` before being transformed, on
every successfully read line. -/

/-- How processing the statements of one input line ends: the loop ran
through all statements (`continues`: the session then reads the next
line), the literal `exit` command returned from `run` (`exited`), or
`parts.first().unwrap()` panicked on a statement with no tokens
(`panicked`).  Each outcome carries the error messages printed to the
error stream before it, in order. -/
inductive LoopOutcome where
  | continues (printed : List String)
  | exited (printed : List String)
  | panicked (printed : List String)
deriving DecidableEq

/-- Prepend error messages to the printed log of an outcome. -/
def LoopOutcome.addPrinted (msgs : List String) : LoopOutcome → LoopOutcome
  | .continues ps => .continues (msgs ++ ps)
  | .exited ps => .exited (msgs ++ ps)
  | .panicked ps => .panicked (msgs ++ ps)

/-- The statement loop of `Shell::run` over one line's statement list:
tokenize each statement, take the first token as the command name
(panicking when there is none), stop the session on the literal `exit`,
and otherwise execute the statement, printing the error message on
failure and always continuing with the next statement. -/
def run_statements (expand : String → String)
    (exec : String → List String → Except String Unit) :
    List String → LoopOutcome
  | [] => .continues []
  | stmt :: rest =>
    match parse_args stmt with
    | [] => .panicked []
    | command :: args =>
      if command = "exit" then .exited []
      else
        let printed :=
          match exec command (args.map expand) with
          | .ok _ => []
          | .error e => [e]
        (run_statements expand exec rest).addPrinted printed

/-- What one successfully read line contributes, in
`Shell::read_input`: the lines handed to the history log
(`add_history_entry` is called on the raw line, unconditionally, before
the line is transformed) and the statements the line splits into. -/
structure ReadResult where
  historyAppended : List String
  statements : List String
deriving DecidableEq

/-- The `Ok(line)` branch of `Shell::read_input`: the raw line is handed
to the history log, then split into statements. -/
def read_input (line : String) : ReadResult :=
  { historyAppended := [line], statements := transform_input line }

/-- A line consisting only of whitespace or only of a comment: after
truncating at the first `#` and trimming, nothing remains. -/
def blankOrComment (line : String) : Bool :=
  (trimChars (line.data.takeWhile (fun c => c != '#'))).isEmpty

/-! ## Helper lemmas about the tokenizer scan -/

/-- Rebuilding a string from its characters gives the string back. -/
lemma mk_data (w : String) : String.mk w.data = w := by
  cases w
  rfl

/-- A string with no characters is the empty string. -/
lemma eq_empty_of_data_eq_nil (w : String) (h : w.data = []) : w = "" := by
  apply String.ext
  simpa using h

/-- Inside quote mode, every character other than a double quote is
appended literally to the current token by the scanner. -/
lemma foldl_tokStep_inQuotes (cs : List Char) :
    ∀ (parts : List (List Char)) (cur : List Char), (∀ c ∈ cs, c ≠ '"') →
    cs.foldl tokStep ⟨parts, cur, true⟩ = ⟨parts, cur ++ cs, true⟩ := by
  induction cs with
  | nil => intro parts cur _; simp
  | cons c cs ih =>
    intro parts cur h
    have hc : c ≠ '"' := h c (List.mem_cons_self ..)
    have hrest : ∀ x ∈ cs, x ≠ '"' := fun x hx => h x (List.mem_cons_of_mem _ hx)
    have hstep : tokStep ⟨parts, cur, true⟩ c = ⟨parts, cur ++ [c], true⟩ := by
      simp [tokStep, hc]
    simp only [List.foldl_cons, hstep, ih _ _ hrest, List.append_assoc,
      List.singleton_append]

/-- Outside quote mode, a run of characters that are neither quotes nor
spaces is appended literally to the current token by the scanner. -/
lemma foldl_tokStep_plain (cs : List Char) :
    ∀ (parts : List (List Char)) (cur : List Char),
    (∀ c ∈ cs, c ≠ '"' ∧ c ≠ ' ') →
    cs.foldl tokStep ⟨parts, cur, false⟩ = ⟨parts, cur ++ cs, false⟩ := by
  induction cs with
  | nil => intro parts cur _; simp
  | cons c cs ih =>
    intro parts cur h
    have hc := h c (List.mem_cons_self ..)
    have hrest : ∀ x ∈ cs, x ≠ '"' ∧ x ≠ ' ' :=
      fun x hx => h x (List.mem_cons_of_mem _ hx)
    have hstep : tokStep ⟨parts, cur, false⟩ c = ⟨parts, cur ++ [c], false⟩ := by
      simp [tokStep, hc.1, hc.2]
    simp only [List.foldl_cons, hstep, ih _ _ hrest, List.append_assoc,
      List.singleton_append]

/-- One scanner step never writes a double quote into the state: the
quote character itself only toggles the mode. -/
lemma tokStep_no_quote (st : TokState) (c : Char)
    (h1 : ∀ p ∈ st.parts, '"' ∉ p) (h2 : '"' ∉ st.current) :
    (∀ p ∈ (tokStep st c).parts, '"' ∉ p) ∧ '"' ∉ (tokStep st c).current := by
  unfold tokStep
  by_cases hc : c = '"'
  · simpa [hc] using ⟨h1, h2⟩
  · rw [if_neg hc]
    by_cases hsp : (c = ' ' && !st.inQuotes) = true
    · rw [if_pos hsp]
      by_cases hcur : st.current ≠ []
      · rw [if_pos hcur]
        refine ⟨?_, by simp⟩
        intro p hp
        rcases List.mem_append.mp hp with h | h
        · exact h1 p h
        · rw [List.mem_singleton.mp h]
          exact h2
      · rw [if_neg hcur]
        exact ⟨h1, h2⟩
    · rw [if_neg hsp]
      refine ⟨h1, ?_⟩
      intro hmem
      rcases List.mem_append.mp hmem with h | h
      · exact h2 h
      · exact hc (List.mem_singleton.mp h).symm

/-- The scanner invariant: no emitted part and no pending token ever
contains a double quote. -/
lemma foldl_tokStep_no_quote (cs : List Char) :
    ∀ (st : TokState), (∀ p ∈ st.parts, '"' ∉ p) → '"' ∉ st.current →
    (∀ p ∈ (cs.foldl tokStep st).parts, '"' ∉ p) ∧
      '"' ∉ (cs.foldl tokStep st).current := by
  induction cs with
  | nil => exact fun st h1 h2 => ⟨h1, h2⟩
  | cons c cs ih =>
    intro st h1 h2
    simp only [List.foldl_cons]
    have := tokStep_no_quote st c h1 h2
    exact ih _ this.1 this.2

/-- Every token produced by the tokenizer is free of double quotes. -/
lemma parse_args_no_quote (s : String) (t : String) (ht : t ∈ parse_args s) :
    '"' ∉ t.data := by
  unfold parse_args at ht
  have hinv := foldl_tokStep_no_quote s.data ⟨[], [], false⟩ (by simp) (by simp)
  rcases List.mem_map.mp ht with ⟨p, hp, rfl⟩
  have hpq : '"' ∉ p := by
    by_cases hcur : (s.data.foldl tokStep ⟨[], [], false⟩).current ≠ []
    · rw [if_pos hcur] at hp
      rcases List.mem_append.mp hp with h | h
      · exact hinv.1 p h
      · rw [List.mem_singleton.mp h]
        exact hinv.2
    · rw [if_neg hcur] at hp
      exact hinv.1 p hp
  simpa using hpq

/-- A quoted argument after a command: the text between the quotes
becomes a single token with its spaces kept literally. -/
lemma parse_args_quoted (w : String) (hw : w ≠ "")
    (hq : ∀ c ∈ w.data, c ≠ '"') :
    parse_args ("echo \"" ++ w ++ "\"") = ["echo", w] := by
  have hwdata : w.data ≠ [] := fun h => hw (eq_empty_of_data_eq_nil w h)
  have hdata : ("echo \"" ++ w ++ "\"").data
      = ['e', 'c', 'h', 'o', ' ', '"'] ++ (w.data ++ ['"']) := by
    simp [String.data_append]
  unfold parse_args
  rw [hdata, List.foldl_append, List.foldl_append]
  have h1 : List.foldl tokStep ⟨[], [], false⟩ ['e', 'c', 'h', 'o', ' ', '"']
      = ⟨[['e', 'c', 'h', 'o']], [], true⟩ := by decide
  rw [h1, foldl_tokStep_inQuotes w.data _ _ hq]
  have h2 : List.foldl tokStep ⟨[['e', 'c', 'h', 'o']], [] ++ w.data, true⟩ ['"']
      = ⟨[['e', 'c', 'h', 'o']], w.data, false⟩ := by
    simp [tokStep]
  rw [h2]
  simp only [List.nil_append, ne_eq, ite_not]
  rw [if_neg hwdata]
  simp [mk_data]

/-- A single space outside quotes separates two plain words into two
tokens. -/
lemma parse_args_space_split (u v : String) (hu : u ≠ "") (hv : v ≠ "")
    (h : ∀ c ∈ u.data ++ v.data, c ≠ '"' ∧ c ≠ ' ') :
    parse_args (u ++ " " ++ v) = [u, v] := by
  have hudata : u.data ≠ [] := fun hh => hu (eq_empty_of_data_eq_nil u hh)
  have hvdata : v.data ≠ [] := fun hh => hv (eq_empty_of_data_eq_nil v hh)
  have hu2 : ∀ c ∈ u.data, c ≠ '"' ∧ c ≠ ' ' :=
    fun c hc => h c (List.mem_append.mpr (Or.inl hc))
  have hv2 : ∀ c ∈ v.data, c ≠ '"' ∧ c ≠ ' ' :=
    fun c hc => h c (List.mem_append.mpr (Or.inr hc))
  have hdata : (u ++ " " ++ v).data = u.data ++ ([' '] ++ v.data) := by
    simp [String.data_append]
  unfold parse_args
  rw [hdata, List.foldl_append, List.foldl_append]
  rw [foldl_tokStep_plain u.data _ _ hu2]
  have hsp : List.foldl tokStep ⟨[], [] ++ u.data, false⟩ [' ']
      = ⟨[[] ++ u.data], [], false⟩ := by
    simp only [List.foldl_cons, List.foldl_nil, List.nil_append]
    simp [tokStep, hudata]
  rw [hsp, foldl_tokStep_plain v.data _ _ hv2]
  simp only [List.nil_append]
  rw [if_pos hvdata]
  simp [mk_data]

/-! ## Helper lemmas about the statement splitter -/

/-- `takeWhile` keeps a list whose characters are all different from
the comment marker. -/
lemma takeWhile_no_hash (l : List Char) (h : ∀ c ∈ l, c ≠ '#') :
    l.takeWhile (fun c => c != '#') = l := by
  induction l with
  | nil => rfl
  | cons c cs ih =>
    have hc : c ≠ '#' := h c (List.mem_cons_self ..)
    have hrest : ∀ x ∈ cs, x ≠ '#' := fun x hx => h x (List.mem_cons_of_mem _ hx)
    simp [List.takeWhile_cons, hc, ih hrest]

/-- `takeWhile` stops exactly at the first comment marker. -/
lemma takeWhile_until_hash (l : List Char) (r : List Char)
    (h : ∀ c ∈ l, c ≠ '#') :
    (l ++ '#' :: r).takeWhile (fun c => c != '#') = l := by
  induction l with
  | nil => simp [List.takeWhile_cons]
  | cons c cs ih =>
    have hc : c ≠ '#' := h c (List.mem_cons_self ..)
    have hrest : ∀ x ∈ cs, x ≠ '#' := fun x hx => h x (List.mem_cons_of_mem _ hx)
    simp [List.takeWhile_cons, hc, ih hrest]

/-- A line that is blank once its comment is stripped splits into no
statements. -/
lemma transform_input_blank (line : String) (h : blankOrComment line = true) :
    transform_input line = [] := by
  unfold blankOrComment at h
  rw [List.isEmpty_iff] at h
  unfold transform_input
  rw [h]
  rfl

/-! ## Helper lemmas about the operator scanners -/

/-- The stage-collecting loop emits no stage when every token is a pipe. -/
lemma pipelineStages_all_pipes (toks : List String)
    (h : ∀ t ∈ toks, t = "|") : pipelineStages [] toks = [] := by
  induction toks with
  | nil => rfl
  | cons t rest ih =>
    have ht : t = "|" := h t (List.mem_cons_self ..)
    have hrest : ∀ x ∈ rest, x = "|" := fun x hx => h x (List.mem_cons_of_mem _ hx)
    rw [pipelineStages, if_pos ht]
    exact ih hrest

/-! ## Helper lemmas about the process orchestrator -/

/-- When the stages before index `k` spawn fine and stage `k` fails to
spawn, the spawn loop stops at `k`: it reports the OS message of stage
`k` and the spawned children are exactly the stages before `k`. -/
lemma spawn_loop_fail (os : Nat → SpawnOutcome) (stages : List (String × List String)) :
    ∀ (i k : Nat) (msg : String), k < stages.length →
    (∀ j, j < k → ∃ s, os (i + j) = .spawned s) →
    os (i + k) = .spawnFail msg →
    (spawn_loop os i stages).1 = some msg ∧
      (spawn_loop os i stages).2.map Prod.fst = List.range' i k := by
  induction stages with
  | nil =>
    intro i k msg hk _ _
    exact absurd hk (by simp)
  | cons stage rest ih =>
    intro i k msg hk hok hfail
    match k with
    | 0 =>
      rw [Nat.add_zero] at hfail
      rw [spawn_loop, hfail]
      simp
    | k' + 1 =>
      obtain ⟨s0, hs0⟩ := hok 0 (Nat.succ_pos _)
      rw [Nat.add_zero] at hs0
      rw [spawn_loop, hs0]
      have hok' : ∀ j, j < k' → ∃ s, os (i + 1 + j) = .spawned s := by
        intro j hj
        have := hok (j + 1) (by omega)
        rwa [show i + (j + 1) = i + 1 + j by omega] at this
      have hfail' : os (i + 1 + k') = .spawnFail msg := by
        rwa [show i + 1 + k' = i + (k' + 1) by omega]
      have := ih (i + 1) k' msg (by simpa using hk) hok' hfail'
      refine ⟨this.1, ?_⟩
      simp only [List.map_cons, this.2]
      rfl

/-! ## Claim theorems -/

/-- C6, counterexample.  The claim says a run of whitespace outside
quotes ends the current token.  The scanner of `parse_args` only treats
the space character as a separator: a tab is whitespace, yet
`parse_args "a\tb"` yields the single token `a\tb` instead of the two
tokens `a` and `b` the claim calls for. -/
theorem tokenizer_tab_counterexample :
    parse_args "a\tb" = ["a\tb"] ∧
    (parse_args "a\tb" == ["a", "b"]) = false ∧
    Char.isWhitespace '\t' = true := by decide

/-- C6, amended: `parse_args` toggles a quoted mode on each double
quote and elides the quotes from its output (no token ever contains a
double quote); outside quoted mode a run of SPACE characters (not
arbitrary whitespace) ends the current token; inside quoted mode spaces
are literal, so `echo "a b"` yields the two tokens `echo` and `a b`;
and an unterminated quote still emits the trailing token. -/
theorem tokenizer_quoting :
    parse_args "echo \"a b\"" = ["echo", "a b"] ∧
    parse_args "echo \"a b" = ["echo", "a b"] ∧
    (∀ s t : String, t ∈ parse_args s → '"' ∉ t.data) ∧
    (∀ w : String, w ≠ "" → (∀ c ∈ w.data, c ≠ '"') →
      parse_args ("echo \"" ++ w ++ "\"") = ["echo", w]) ∧
    (∀ u v : String, u ≠ "" → v ≠ "" →
      (∀ c ∈ u.data ++ v.data, c ≠ '"' ∧ c ≠ ' ') →
      parse_args (u ++ " " ++ v) = [u, v]) :=
  ⟨by decide, by decide, parse_args_no_quote, parse_args_quoted,
    parse_args_space_split⟩

/-- C6, witness for the amended theorem at concrete inputs. -/
theorem tokenizer_quoting_witness :
    parse_args ("echo \"" ++ "a b" ++ "\"") = ["echo", "a b"] ∧
    parse_args ("ls" ++ " " ++ "-a") = ["ls", "-a"] := by
  have h := tokenizer_quoting
  exact ⟨h.2.2.2.1 "a b" (by decide) (by decide),
    h.2.2.2.2 "ls" "-a" (by decide) (by decide) (by decide)⟩

/-- C7: `transform_input` truncates the line at the first `#` by a
plain substring split (so a `#` inside quotes also starts a comment),
splits the remainder on `;`, trims each fragment and discards the empty
ones; the input `cmd1; cmd2 # trailing comment` yields exactly the two
statements `cmd1` then `cmd2`, in that order. -/
theorem statement_splitting :
    transform_input "cmd1; cmd2 # trailing comment" = ["cmd1", "cmd2"] ∧
    (∀ s t : String, (∀ c ∈ s.data, c ≠ '#') →
      transform_input (s ++ "#" ++ t) = transform_input s) ∧
    transform_input "echo \"a#b\"" = ["echo \"a"] ∧
    (∀ s stmt : String, stmt ∈ transform_input s → stmt ≠ "") := by
  refine ⟨by decide, ?_, by decide, ?_⟩
  · intro s t h
    have hdata : (s ++ "#" ++ t).data = s.data ++ '#' :: t.data := by
      rw [String.data_append, String.data_append]
      simp
    unfold transform_input
    rw [hdata, takeWhile_until_hash s.data t.data h, takeWhile_no_hash s.data h]
  · intro s stmt hmem
    unfold transform_input at hmem
    rcases List.mem_map.mp hmem with ⟨frag, hfrag, rfl⟩
    rw [List.mem_filter] at hfrag
    have hne : frag ≠ [] := by simpa [List.isEmpty_iff] using hfrag.2
    intro hcontra
    apply hne
    simpa using congrArg String.data hcontra

/-- C7, witness for the comment-truncation conjunct at a concrete
input. -/
theorem statement_splitting_witness :
    transform_input ("ls -a " ++ "#" ++ " comment") = transform_input "ls -a " ∧
    transform_input "ls -a " = ["ls -a"] := by
  have h := statement_splitting
  exact ⟨h.2.1 "ls -a " " comment" (by decide), by decide⟩

/-- C8, counterexample.  The claim says a comment-only (or
whitespace-only) line does not advance the history log, but
`read_input` hands every line read to `add_history_entry` before
transforming it, so the comment-only line is passed to the history log
even though it yields no statements. -/
theorem history_blank_line_counterexample :
    blankOrComment "# just a comment" = true ∧
    (read_input "# just a comment").statements = [] ∧
    (read_input "# just a comment").historyAppended = ["# just a comment"] ∧
    (read_input "# just a comment").historyAppended.isEmpty = false := by decide

/-- C8, amended: every line read is handed to the history log (before
any execution), including whitespace-only and comment-only lines; for a
whitespace-only or comment-only line no command is dispatched -- it
yields no statements, and running its (empty) statement list executes
nothing and prints nothing. -/
theorem history_append_policy :
    (∀ line : String, (read_input line).historyAppended = [line]) ∧
    (∀ line : String, blankOrComment line = true →
      (read_input line).statements = [] ∧
      ∀ (expand : String → String) (exec : String → List String → Except String Unit),
        run_statements expand exec (read_input line).statements = .continues []) := by
  refine ⟨fun line => rfl, fun line h => ?_⟩
  have hs : (read_input line).statements = [] := transform_input_blank line h
  exact ⟨hs, fun expand exec => by rw [hs]; rfl⟩

/-- C8, witness for the amended theorem at a whitespace-only line. -/
theorem history_append_policy_witness :
    (read_input "   ").historyAppended = ["   "] ∧
    (read_input "   ").statements = [] ∧
    run_statements id (fun _ _ => Except.ok ()) (read_input "   ").statements =
      .continues [] := by
  have h := history_append_policy
  exact ⟨h.1 "   ", (h.2 "   " (by decide)).1,
    (h.2 "   " (by decide)).2 id (fun _ _ => Except.ok ())⟩

/-- C9: the claim says the tokenizer returns a nonempty token list for
every statement the splitter emits, so `parts.first().unwrap()` cannot
panic.  The input line consisting of two double quotes refutes this:
the splitter emits the statement `""` (nonempty after trimming), the
tokenizer elides both quotes and returns no tokens, and the session
loop hits the `unwrap` panic. -/
theorem empty_token_panic :
    transform_input "\"\"" = ["\"\""] ∧
    parse_args "\"\"" = [] ∧
    run_statements id (fun _ _ => Except.ok ()) ["\"\""] = .panicked [] := by
  decide

/-- C3, counterexample.  The claim says a `>` token with no following
token is reported as a missing-filename parse error.  In the code,
`try_parse_redirects` returns `None` on that shape (the guard
`pos + 1 < commands.len()` fails), so the statement falls through to
ordinary dispatch: `echo >` runs the `echo` builtin with the literal
argument `>`, and no error is reported. -/
theorem trailing_redirect_counterexample :
    try_parse_redirects "echo" [">"] = none ∧
    dispatch "echo" [">"] = .builtin "echo" [">"] := by decide

/-- C3, amended: a statement whose first `>` token is its last token is
not treated as a redirect at all -- `try_parse_redirects` returns
`none` and the statement is dispatched as an ordinary builtin or
external command with `>` passed through as a literal argument; no
parse error is reported. -/
theorem trailing_redirect_falls_through :
    ∀ (command : String) (args : List String) (pos : Nat),
    command ≠ "" →
    (command :: args).contains "|" = false →
    (command :: args).findIdx? (fun x => x == ">") = some pos →
    pos + 1 = (command :: args).length →
    try_parse_redirects command args = none ∧
    dispatch command args =
      (if builtin_names.contains command then Route.builtin command args
       else Route.external command args) := by
  intro command args pos hcmd hpipe hfind hlast
  have hred : try_parse_redirects command args = none := by
    simp only [try_parse_redirects, hfind]
    rw [if_neg (by omega)]
  have hpl : try_parse_pipeline command args = none := by
    unfold try_parse_pipeline
    show (if (command :: args).contains "|" = true
        then some (pipelineStages [] (command :: args)) else none) = none
    rw [hpipe]
    rfl
  exact ⟨hred, by simp [dispatch, hcmd, hpl, hred]⟩

/-- C3, witness for the amended theorem at a concrete input. -/
theorem trailing_redirect_falls_through_witness :
    try_parse_redirects "echo" ["hello", ">"] = none ∧
    dispatch "echo" ["hello", ">"] = .builtin "echo" ["hello", ">"] := by
  have h := trailing_redirect_falls_through "echo" ["hello", ">"] 2
    (by decide) (by decide) (by decide) (by decide)
  exact ⟨h.1, h.2.trans (by decide)⟩

/-- C4: the dispatch policy of `Shell::execute`, in order.  When any
token is `|`, the statement is routed purely as a pipeline (the stages
come from the pipe split; the redirect scan never runs, so a `>` token
is swallowed into its stage).  Otherwise, when the redirect scan
succeeds, the statement is routed to the orchestrator in redirect mode
-- with no condition on the command name, hence even for a builtin.
Otherwise the command runs as a builtin exactly when the registry
contains its name, and as a single external process otherwise. -/
theorem dispatch_policy :
    ∀ (command : String) (args : List String), command ≠ "" →
    ((command :: args).contains "|" = true →
      dispatch command args = .pipeline (pipelineStages [] (command :: args))) ∧
    ((command :: args).contains "|" = false →
      ∀ (cmd : String) (rargs : List String) (output : String),
      try_parse_redirects command args = some (cmd, rargs, output) →
      dispatch command args = .redirect cmd rargs output) ∧
    ((command :: args).contains "|" = false →
      try_parse_redirects command args = none →
      dispatch command args =
        (if builtin_names.contains command then Route.builtin command args
         else Route.external command args)) := by
  intro command args hcmd
  refine ⟨fun hpipe => ?_, fun hpipe cmd rargs output hred => ?_,
    fun hpipe hred => ?_⟩
  · have hpl : try_parse_pipeline command args
        = some (pipelineStages [] (command :: args)) := by
      unfold try_parse_pipeline
      show (if (command :: args).contains "|" = true
          then some (pipelineStages [] (command :: args)) else none)
        = some (pipelineStages [] (command :: args))
      rw [hpipe]
      rfl
    simp [dispatch, hcmd, hpl]
  · have hpl : try_parse_pipeline command args = none := by
      unfold try_parse_pipeline
      show (if (command :: args).contains "|" = true
          then some (pipelineStages [] (command :: args)) else none) = none
      rw [hpipe]
      rfl
    simp [dispatch, hcmd, hpl, hred]
  · have hpl : try_parse_pipeline command args = none := by
      unfold try_parse_pipeline
      show (if (command :: args).contains "|" = true
          then some (pipelineStages [] (command :: args)) else none) = none
      rw [hpipe]
      rfl
    simp [dispatch, hcmd, hpl, hred]

/-- C4, witness: the three routes at concrete inputs, including a
pipeline whose tokens contain `>` (no redirect scan) and a redirect
whose command is the `echo` builtin. -/
theorem dispatch_policy_witness :
    dispatch "echo" ["a", "|", "cat", ">", "f"]
      = .pipeline [("echo", ["a"]), ("cat", [">", "f"])] ∧
    dispatch "echo" ["hi", ">", "f"] = .redirect "echo" ["hi"] "f" ∧
    dispatch "echo" ["hi"] = .builtin "echo" ["hi"] ∧
    dispatch "zzznotacmd" [] = .external "zzznotacmd" [] := by
  have h1 := (dispatch_policy "echo" ["a", "|", "cat", ">", "f"]
    (by decide)).1 (by decide)
  have h2 := (dispatch_policy "echo" ["hi", ">", "f"] (by decide)).2.1
    (by decide) "echo" ["hi"] "f" (by decide)
  have h3 := (dispatch_policy "echo" ["hi"] (by decide)).2.2
    (by decide) (by decide)
  have h4 := (dispatch_policy "zzznotacmd" [] (by decide)).2.2
    (by decide) (by decide)
  exact ⟨h1.trans (by decide), h2, h3.trans (by decide), h4.trans (by decide)⟩

/-- C10: a statement whose tokens are all `|` parses to a pipeline with
zero stages, and `execute_pipeline` on the empty stage list returns
success at once, spawning no process, waiting on none and reporting no
error. -/
theorem all_pipes_empty_pipeline :
    ∀ (command : String) (args : List String) (os : Nat → SpawnOutcome),
    (∀ t ∈ command :: args, t = "|") →
    try_parse_pipeline command args = some [] ∧
    execute_pipeline os [] = ⟨.ok (), [], []⟩ := by
  intro command args os h
  have hcmd : command = "|" := h command (List.mem_cons_self ..)
  have hcont : (command :: args).contains "|" = true := by
    subst hcmd
    simp [List.contains_cons]
  refine ⟨?_, rfl⟩
  unfold try_parse_pipeline
  show (if (command :: args).contains "|" = true
      then some (pipelineStages [] (command :: args)) else none) = some []
  rw [hcont]
  simp [pipelineStages_all_pipes _ h]

/-- C10, witness at the statement consisting of two pipe tokens. -/
theorem all_pipes_empty_pipeline_witness :
    try_parse_pipeline "|" ["|"] = some [] ∧
    execute_pipeline (fun _ => .spawned 0) [] = ⟨.ok (), [], []⟩ :=
  all_pipes_empty_pipeline "|" ["|"] (fun _ => .spawned 0) (by decide)

/-- C1: evaluation at the failing input.  In a three-stage pipeline
where the second stage exits with status 1, the orchestrator does
report the failure with the 1-based index of the failing stage (`2`),
but it returns from `wait_for_processes` at that point: stage index 2
(the third stage) was spawned yet is never waited on, contradicting the
claim that every remaining spawned stage is reaped before returning. -/
theorem pipeline_failure_reaps_only_up_to_failure :
    execute_pipeline (fun i => .spawned (if i = 1 then 1 else 0))
        [("cat", []), ("false", []), ("wc", [])] =
      ⟨.error (.stageError 2 1), [0, 1, 2], [0, 1]⟩ ∧
    PipelineError.message (.stageError 2 1)
      = "Pipeline command 2 exited with status: exit status: 1" ∧
    ((execute_pipeline (fun i => .spawned (if i = 1 then 1 else 0))
        [("cat", []), ("false", []), ("wc", [])]).reaped.contains 2) = false := by
  decide

/-- C2, counterexample.  In a two-stage pipeline where the second stage
fails to spawn, the raw OS error propagates (its message is not
`command not found: <name>`), and the already-spawned first stage is
not waited on before the error is returned. -/
theorem pipeline_spawn_failure_counterexample :
    execute_pipeline
        (fun i => if i = 0 then .spawned 0
          else .spawnFail "No such file or directory (os error 2)")
        [("echo", ["hi"]), ("zzznotacmd", [])] =
      ⟨.error (.spawnError "No such file or directory (os error 2)"), [0], []⟩ ∧
    (PipelineError.message (.spawnError "No such file or directory (os error 2)")
        == "command not found: zzznotacmd") = false := by decide

/-- C2, amended: a spawn failure at stage `k` of a pipeline aborts the
spawn loop at once: the raw OS error is propagated unchanged (the
pipeline path performs no command-not-found mapping), the stages before
`k` remain spawned, and none of them is waited on before the error is
returned. -/
theorem pipeline_spawn_failure_aborts_unreaped :
    ∀ (os : Nat → SpawnOutcome) (stages : List (String × List String))
      (k : Nat) (msg : String),
    k < stages.length →
    (∀ j, j < k → ∃ s, os j = .spawned s) →
    os k = .spawnFail msg →
    execute_pipeline os stages =
      ⟨.error (.spawnError msg), List.range' 0 k, []⟩ := by
  intro os stages k msg hk hok hfail
  have h := spawn_loop_fail os stages 0 k msg hk
    (by intro j hj; simpa using hok j hj) (by simpa using hfail)
  rcases hsl : spawn_loop os 0 stages with ⟨o, ch⟩
  rw [hsl] at h
  obtain ⟨h1, h2⟩ := h
  have hne : stages.isEmpty = false := by
    cases stages
    · simp at hk
    · rfl
  simp only at h1
  subst h1
  simp [execute_pipeline, hne, hsl, h2]

/-- C2, witness for the amended theorem at a concrete pipeline. -/
theorem pipeline_spawn_failure_aborts_unreaped_witness :
    execute_pipeline
      (fun i => if i = 0 then .spawned 0 else .spawnFail "spawn failed")
      [("echo", ["hi"]), ("zzznotacmd", [])] =
      ⟨.error (.spawnError "spawn failed"), List.range' 0 1, []⟩ := by
  exact pipeline_spawn_failure_aborts_unreaped
    (fun i => if i = 0 then .spawned 0 else .spawnFail "spawn failed")
    [("echo", ["hi"]), ("zzznotacmd", [])] 1 "spawn failed" (by decide)
    (fun j hj => ⟨0, by
      have hj0 : j = 0 := by omega
      subst hj0
      decide⟩)
    (by decide)

/-- C5, counterexample.  The claim says only the literal command
`exit` and end-of-input terminate the session.  A statement that
tokenizes to no tokens (here the two-quote statement) aborts the
session through the `parts.first().unwrap()` panic before the third
statement is reached, although it is not the `exit` command. -/
theorem session_loop_panic_counterexample :
    run_statements id (fun _ _ => Except.ok ())
      ["echo ok", "\"\"", "echo after"] = .panicked [] ∧
    (("\"\"" : String) == "exit") = false := by decide

/-- C5, amended: every error produced by executing one statement is
printed to the error stream and the loop continues with the next
statement; an unknown command is surfaced by `execute_external` as the
error `command not found: <name>`; and for statements that tokenize to
a nonempty token list, the session ends exactly on the literal command
`exit` (a statement tokenizing to no tokens instead aborts the shell
with the unwrap panic, see the C9 theorem).  Conjuncts: (1) the
not-found mapping; (2) an erroring non-exit statement prints its error
and processing continues with the rest; (3) when no statement
tokenizes to `exit` as its first token, the loop runs through all
statements and continues; (4) a statement whose first token is `exit`
ends the session at once. -/
theorem session_loop_error_policy :
    (∀ cmd msg : String,
      execute_external cmd (.spawnFails .notFound msg)
        = .error ("command not found: " ++ cmd)) ∧
    (∀ (expand : String → String)
       (exec : String → List String → Except String Unit)
       (stmt : String) (rest : List String)
       (command : String) (args : List String) (e : String),
      parse_args stmt = command :: args → command ≠ "exit" →
      exec command (args.map expand) = .error e →
      run_statements expand exec (stmt :: rest) =
        (run_statements expand exec rest).addPrinted [e]) ∧
    (∀ (expand : String → String)
       (exec : String → List String → Except String Unit)
       (stmts : List String),
      (∀ s ∈ stmts, ∃ c a, parse_args s = c :: a ∧ c ≠ "exit") →
      ∃ printed, run_statements expand exec stmts = .continues printed) ∧
    (∀ (expand : String → String)
       (exec : String → List String → Except String Unit)
       (stmt : String) (rest : List String) (args : List String),
      parse_args stmt = "exit" :: args →
      run_statements expand exec (stmt :: rest) = .exited []) := by
  refine ⟨fun cmd msg => rfl, ?_, ?_, ?_⟩
  · intro expand exec stmt rest command args e hparse hcmd hexec
    simp only [run_statements, hparse]
    rw [if_neg hcmd, hexec]
  · intro expand exec stmts h
    induction stmts with
    | nil => exact ⟨[], rfl⟩
    | cons s rest ih =>
      obtain ⟨c, a, hp, hc⟩ := h s (List.mem_cons_self ..)
      obtain ⟨ps, hps⟩ := ih (fun x hx => h x (List.mem_cons_of_mem _ hx))
      refine ⟨(match exec c (a.map expand) with
        | .ok _ => []
        | .error e => [e]) ++ ps, ?_⟩
      simp only [run_statements, hp]
      rw [if_neg hc, hps]
      rfl
  · intro expand exec stmt rest args hparse
    simp [run_statements, hparse]

/-- C5, witness: an unknown command prints `command not found` and the
loop still executes the following statement. -/
theorem session_loop_error_policy_witness :
    execute_external "zzzznotacommand" (.spawnFails .notFound "os message")
      = .error "command not found: zzzznotacommand" ∧
    run_statements id
      (fun c _ => execute_external c (.spawnFails .notFound "os message"))
      ["zzzznotacommand", "ls"] =
      .continues ["command not found: zzzznotacommand",
        "command not found: ls"] := by
  have h := session_loop_error_policy
  refine ⟨h.1 "zzzznotacommand" "os message", ?_⟩
  have h2 := h.2.1 id
    (fun c _ => execute_external c (.spawnFails .notFound "os message"))
    "zzzznotacommand" ["ls"] "zzzznotacommand" [] "command not found: zzzznotacommand"
    (by decide) (by decide) (by decide)
  rw [h2]
  decide

end Hermit
